import Mathlib

/-!
Verification development for the FPnew mixed-precision testbench stimuli
generator (`src/tb/gen_stimuli.cpp`).

The generator is shallowly embedded below.  Machine integers are modelled as
`Nat` with explicit `% 2 ^ w` where the C++ code truncates (the
`(unsigned int)` cast in `ts`, and `flexfloat_set_bits`, which keeps the low
`exp_bits + frac_bits + 1` bits of its argument).  The external flexfloat
arithmetic engine (cast / add / fused multiply-add / renormalisation) is not
part of this repository; it enters the embedding as an uninterpreted
parameter record `FFEngine`, so every theorem about the generator holds for
any engine, constrained only by explicitly stated invariants (for example
that extracted bit patterns fit in the format width, which
`flexfloat_get_bits` guarantees structurally).
-/

namespace GenStimuli

/-- Datapath width: the `#define WIDTH 32` of `gen_stimuli.cpp`. -/
def WIDTH : Nat := 32

/-- Format descriptor `flexfloat_desc_t`: exponent and fraction bit counts. -/
structure flexfloat_desc_t where
  exp_bits : Nat
  frac_bits : Nat
deriving DecidableEq

/-- Total bit width of a format: `exp_bits + frac_bits + 1` (sign bit). -/
def descWidth (d : flexfloat_desc_t) : Nat := d.exp_bits + d.frac_bits + 1

/-- The canonical format descriptors defined at the top of `gen_stimuli.cpp`. -/
def FP64 : flexfloat_desc_t := ⟨11, 52⟩

def FP32 : flexfloat_desc_t := ⟨8, 23⟩

def FP16 : flexfloat_desc_t := ⟨5, 10⟩

def FP8 : flexfloat_desc_t := ⟨5, 2⟩

def FP16ALT : flexfloat_desc_t := ⟨8, 7⟩

def FP8ALT : flexfloat_desc_t := ⟨4, 3⟩

/-- The operation enumeration `operation_e`. -/
inductive operation_e where
  | SDOTP
  | VSUM
  | EXVSUM
  | FMADD
deriving DecidableEq

/-- `to_string(operation_e)` from the source (lines 60-69). -/
def to_string_op : operation_e → String
  | .SDOTP => "SDOTP"
  | .VSUM => "VSUM"
  | .EXVSUM => "EXVSUM"
  | .FMADD => "FMADD"

/-- `to_string(flexfloat_desc_t)` from the source (lines 71-80): the five
canonical descriptors map to five-character display tags; anything else hits
`assert(0)`, modelled as `none`. -/
def to_string_desc (desc : flexfloat_desc_t) : Option String :=
  if desc.exp_bits = 8 ∧ desc.frac_bits = 23 then some "FP32 "
  else if desc.exp_bits = 5 ∧ desc.frac_bits = 10 then some "FP16 "
  else if desc.exp_bits = 5 ∧ desc.frac_bits = 2 then some "FP08 "
  else if desc.exp_bits = 8 ∧ desc.frac_bits = 7 then some "AL16 "
  else if desc.exp_bits = 4 ∧ desc.frac_bits = 3 then some "AL08 "
  else none

/-- `to_desc(std::string)` from the source (lines 82-106): name lookup for
the five supported format names; anything else hits `assert(0)`, modelled as
`none`. -/
def to_desc (str : String) : Option flexfloat_desc_t :=
  if str = "FP32" then some FP32
  else if str = "FP16" then some FP16
  else if str = "FP8" then some FP8
  else if str = "AL16" then some FP16ALT
  else if str = "AL8" then some FP8ALT
  else none

/-- `bool is_fma = op == FMADD` (line 200). -/
def is_fma (op : operation_e) : Bool := op == .FMADD

/-- `bool is_vsum = op == VSUM` (line 199). -/
def is_vsum (op : operation_e) : Bool := op == .VSUM

/-- `bool is_8bit_exvsum = (op == EXVSUM) && (dst_width == 8)` (line 212). -/
def is_8bit_exvsum (op : operation_e) (dst_width : Nat) : Bool :=
  (op == .EXVSUM) && (dst_width == 8)

/-- `int src_width = is_fma || is_8bit_exvsum ? dst_width : dst_width/2`
(line 214). -/
def src_width_of (op : operation_e) (dst_width : Nat) : Nat :=
  if is_fma op || is_8bit_exvsum op dst_width then dst_width else dst_width / 2

/-- The sixteen lowercase hexadecimal digit characters, in value order. -/
def hexDigitChars : List Char := "0123456789abcdef".data

/-- The hexadecimal digit character for `n % 16`, lowercase, as produced by
`std::hex` on a `std::stringstream`. -/
def hexDigit (n : Nat) : Char := hexDigitChars.getD (n % 16) '0'

/-- Fuel-driven digit extraction (structural recursion so the kernel can
evaluate it): digits of `n` in base 16, most significant first, no leading
zeros, empty for 0.  `fuel ≥ n` is always enough fuel since `n / 16 < n`
for positive `n`. -/
def hexCharsAux : Nat → Nat → List Char
  | 0, _ => []
  | fuel + 1, n => if n = 0 then [] else hexCharsAux fuel (n / 16) ++ [hexDigit n]

/-- Hexadecimal digit list of `n` (most significant first, no leading
zeros, empty for 0), mirroring what `operator<<` with `std::hex` emits
before field padding. -/
def hexChars (n : Nat) : List Char := hexCharsAux n n

/-- Hexadecimal rendering of `n` as emitted by `std::hex` (lowercase, at
least one digit). -/
def hexStr (n : Nat) : String :=
  if n = 0 then "0" else String.mk (hexChars n)

/-- Left padding with a fill character up to width `w`, as performed by
`std::setfill`/`std::setw`/`std::right`: pads only when the rendered text
is shorter than the field width. -/
def padLeft (c : Char) (w : Nat) (s : String) : String :=
  String.mk (List.replicate (w - s.length) c) ++ s

/-- The hex encoder `ts(flexfloat_t*, int)` (lines 108-122).  The function
first round-trips the value through its `double` representation
(`ff_get_double` / `ff_init_double`) — the external engine's
renormalisation, abstracted here as the parameter `canon` — then emits
`(width - ff_width)/4` literal `F` filler characters (skipped when that
count is zero, and `std::setw` ignores the negative counts that C++
integer arithmetic would produce when `width < ff_width`, which the `Nat`
truncated subtraction mirrors), followed by the canonical bit pattern,
truncated by the `(unsigned int)` cast to 32 bits and zero-padded to
`ff_width/4` hex digits. -/
def ts (canon : flexfloat_desc_t → Nat → Nat) (desc : flexfloat_desc_t)
    (bits width : Nat) : String :=
  let b := canon desc bits
  let ff_width := desc.exp_bits + desc.frac_bits + 1
  let filler := (width - ff_width) / 4
  (if filler ≠ 0 then String.mk (List.replicate filler 'F') else "") ++
    padLeft '0' (ff_width / 4) (hexStr (b % 2 ^ 32))

/-- Modelled from the spec (§4.2): casting a value to its own format in the
external flexfloat engine (`ff_cast` with the value's own descriptor)
re-normalizes it through the decimal/double value, yielding the canonical
bit pattern; the engine itself is an external collaborator whose code is
not under `src/`, so the same-format cast is modelled as the
canonicalisation map `canon` used by the encoder. -/
def ff_cast_same (canon : flexfloat_desc_t → Nat → Nat)
    (desc : flexfloat_desc_t) (bits : Nat) : Nat :=
  canon desc bits

/-- The external flexfloat arithmetic engine (the library behind
`flexfloat.hpp`, not part of this repository), abstracted at the
bit-pattern level: `cast src dst b` models `ff_cast` from format `src`
into format `dst`; `fma x y z` models `ff_fma` (`x*y + z`) on FP64 values;
`add x y` models `ff_add` on FP64 values; `canon d b` models the
`ff_get_double`/`ff_init_double` re-normalisation of a format-`d` value
performed inside `ts`. -/
structure FFEngine where
  cast : flexfloat_desc_t → flexfloat_desc_t → Nat → Nat
  fma : Nat → Nat → Nat → Nat
  add : Nat → Nat → Nat
  canon : flexfloat_desc_t → Nat → Nat

/-- The generator configuration reached by the end of argument handling in
`main`: operation, stimulus count and the three user-facing formats. -/
structure Config where
  op : operation_e
  nr_of_stimuli : Nat
  src_fmt : flexfloat_desc_t
  src2_fmt : flexfloat_desc_t
  dst_fmt : flexfloat_desc_t
deriving DecidableEq

/-- `a_fmt = is_fma ? src2_fmt : src_fmt` (line 202). -/
def a_fmt (C : Config) : flexfloat_desc_t :=
  if is_fma C.op then C.src2_fmt else C.src_fmt

/-- `b_fmt = src2_fmt` (line 203). -/
def b_fmt (C : Config) : flexfloat_desc_t := C.src2_fmt

/-- `c_fmt = src_fmt` (line 204). -/
def c_fmt (C : Config) : flexfloat_desc_t := C.src_fmt

/-- `d_fmt = is_vsum ? src_fmt : src2_fmt` (line 205). -/
def d_fmt (C : Config) : flexfloat_desc_t :=
  if is_vsum C.op then C.src_fmt else C.src2_fmt

/-- `e_fmt = dst_fmt` (line 206). -/
def e_fmt (C : Config) : flexfloat_desc_t := C.dst_fmt

/-- `int dst_width = dst_fmt.exp_bits + dst_fmt.frac_bits + 1` (line 210). -/
def dst_width (C : Config) : Nat :=
  C.dst_fmt.exp_bits + C.dst_fmt.frac_bits + 1

/-- `src_width` for a configuration (line 214). -/
def src_width (C : Config) : Nat := src_width_of C.op (dst_width C)

/-- `ff_set_random` followed by `flexfloat_set_bits`: the random draw
(modelled by a stream of naturals) is installed as the value's bit
pattern; `flexfloat_set_bits` unpacks sign, exponent and fraction from the
low `exp_bits + frac_bits + 1` bits and ignores the rest, hence the
truncation. -/
def drawBits (fmt : flexfloat_desc_t) (r : Nat) : Nat := r % 2 ^ descWidth fmt

/-- The per-lane golden-result computation of `main` (lines 251-274): cast
the five role values up to FP64, run the operation's arithmetic on the
wide values, and cast the wide result down to the destination format. -/
def laneResult (E : FFEngine) (C : Config)
    (a_bin b_bin c_bin d_bin e_bin : Nat) : Nat :=
  let a := E.cast (a_fmt C) FP64 a_bin
  let b := E.cast (b_fmt C) FP64 b_bin
  let c := E.cast (c_fmt C) FP64 c_bin
  let d := E.cast (d_fmt C) FP64 d_bin
  let e := E.cast (e_fmt C) FP64 e_bin
  let res :=
    match C.op with
    | .SDOTP =>
      let e1 := E.fma a b e
      E.fma c d e1
    | .VSUM =>
      let e1 := E.add e a
      E.add e1 c
    | .EXVSUM =>
      let e1 := E.add e a
      E.add e1 c
    | .FMADD => E.fma a c e
  E.cast FP64 C.dst_fmt res

/-- The formula table of spec §4.3, written as the spec states it: for
SDOTP first the chained fused multiply-add on (a,b,e), then the second on
(c,d) and that intermediate; for VSUM/EXVSUM two chained additions; for
FMADD a single fused multiply-add. -/
def goldenFormula (E : FFEngine) (op : operation_e) (a b c d e : Nat) : Nat :=
  match op with
  | .SDOTP => E.fma c d (E.fma a b e)
  | .VSUM => E.add (E.add e a) c
  | .EXVSUM => E.add (E.add e a) c
  | .FMADD => E.fma a c e

/-- The golden pipeline as described by spec §4.3: all five role values
cast up to the wide FP64 reference format, the formula applied at wide
precision, and the result cast down to the destination format. -/
def goldenSpec (E : FFEngine) (C : Config)
    (a_bin b_bin c_bin d_bin e_bin : Nat) : Nat :=
  E.cast FP64 C.dst_fmt
    (goldenFormula E C.op
      (E.cast (a_fmt C) FP64 a_bin) (E.cast (b_fmt C) FP64 b_bin)
      (E.cast (c_fmt C) FP64 c_bin) (E.cast (d_fmt C) FP64 d_bin)
      (E.cast (e_fmt C) FP64 e_bin))

/-- The per-record accumulator strings of `main` (lines 216 and 228-240). -/
structure Accs where
  e_cc : String
  d_cc : String
  c_cc : String
  b_cc : String
  a_cc : String
  db_cc : String
  ca_cc : String
  ca2_cc : String
  output : String
deriving DecidableEq

/-- The accumulators as reset at the top of each record iteration. -/
def initAccs : Accs := ⟨"", "", "", "", "", "", "", "", ""⟩

/-- The body of the inner lane loop (lines 243-288) for record index `k`
and lane index `i`: draw the five role bit patterns, compute the golden
result, and append each role's hex string to its accumulator — `e_cc`
(preceded by a literal `"FF"` for VSUM at destination width 8) at
`dst_width`, the operand accumulators at `src_width`, the (d,b) pair into
`db_cc`, the (c,a) pair into `ca_cc` when the operation is not VSUM or the
record index is even or `dst_width` is 8 and into `ca2_cc` otherwise, and
the result at `dst_width` into `output`. -/
def laneStep (E : FFEngine) (C : Config) (k : Nat) (rnd : Nat → Nat → Nat)
    (s : Accs) (i : Nat) : Accs :=
  let a_bin := drawBits (a_fmt C) (rnd i 0)
  let b_bin := drawBits (b_fmt C) (rnd i 1)
  let c_bin := drawBits (c_fmt C) (rnd i 2)
  let d_bin := drawBits (d_fmt C) (rnd i 3)
  let e_bin := drawBits (e_fmt C) (rnd i 4)
  let res_bits := laneResult E C a_bin b_bin c_bin d_bin e_bin
  let caPair := ts E.canon (c_fmt C) c_bin (src_width C) ++
    ts E.canon (a_fmt C) a_bin (src_width C)
  { e_cc := s.e_cc ++ (if C.op = .VSUM ∧ dst_width C = 8 then "FF" else "") ++
      ts E.canon (e_fmt C) e_bin (dst_width C)
    d_cc := s.d_cc ++ ts E.canon (d_fmt C) d_bin (src_width C)
    c_cc := s.c_cc ++ ts E.canon (c_fmt C) c_bin (src_width C)
    b_cc := s.b_cc ++ ts E.canon (b_fmt C) b_bin (src_width C)
    a_cc := s.a_cc ++ ts E.canon (a_fmt C) a_bin (src_width C)
    db_cc := s.db_cc ++ ts E.canon (d_fmt C) d_bin (src_width C) ++
      ts E.canon (b_fmt C) b_bin (src_width C)
    ca_cc := if C.op ≠ .VSUM ∨ k % 2 = 0 ∨ dst_width C = 8 then
        s.ca_cc ++ caPair
      else s.ca_cc
    ca2_cc := if C.op ≠ .VSUM ∨ k % 2 = 0 ∨ dst_width C = 8 then s.ca2_cc
      else s.ca2_cc ++ caPair
    output := s.output ++ ts E.canon C.dst_fmt res_bits (dst_width C) }

/-- The lane indices iterated by the inner loop: `for(i = 0; i <
WIDTH/dst_width; i++)` (line 242), cut short by the `break` for VSUM at
destination width 8 once `i >= WIDTH/16` (line 243). -/
def laneIdxs (C : Config) : List Nat :=
  (List.range (WIDTH / dst_width C)).takeWhile
    (fun i => !(decide (C.op = .VSUM ∧ dst_width C = 8 ∧ WIDTH / 16 ≤ i)))

/-- A full run of the inner lane loop for one record. -/
def recordAccs (E : FFEngine) (C : Config) (k : Nat)
    (rnd : Nat → Nat → Nat) : Accs :=
  (laneIdxs C).foldl (laneStep E C k rnd) initAccs

/-- Post-loop fixup for VSUM at destination width 8 (lines 291-294): the
result field is prefixed with `WIDTH/8` literal `F` characters and
`ca2_cc` is replaced wholesale by a `WIDTH/4`-character `F` filler. -/
def recordAccsFinal (E : FFEngine) (C : Config) (k : Nat)
    (rnd : Nat → Nat → Nat) : Accs :=
  let s := recordAccs E C k rnd
  if C.op = .VSUM ∧ dst_width C = 8 then
    { s with
      output := String.mk (List.replicate (WIDTH / 8) 'F') ++ s.output
      ca2_cc := String.mk (List.replicate (WIDTH / 4) 'F') }
  else s

/-- `bool op_mod = false` (line 160), printed as `0` by `operator<<`. -/
def op_mod : Bool := false

/-- Assembly of one record line (lines 297-316).  The format tags come
from `to_string(flexfloat_desc_t)`, whose `assert(0)` on a non-canonical
descriptor is modelled as `none`. -/
def recordLine (E : FFEngine) (C : Config) (k : Nat)
    (rnd : Nat → Nat → Nat) : Option String := do
  let t1 ← to_string_desc C.src_fmt
  let t2 ← to_string_desc C.src2_fmt
  let t3 ← to_string_desc C.dst_fmt
  let s := recordAccsFinal E C k rnd
  let modTag := if op_mod then "1" else "0"
  match C.op with
  | .SDOTP =>
    pure ("SDOTP " ++ modTag ++ " " ++ t1 ++ t2 ++ t3 ++
      s.e_cc ++ s.db_cc ++ s.ca_cc ++ " " ++ s.output)
  | .VSUM =>
    if dst_width C = WIDTH then
      pure ("VSUM_ " ++ modTag ++ " " ++ t1 ++ t2 ++ t3 ++
        s.e_cc ++ s.c_cc ++ s.a_cc ++ " " ++ s.output)
    else
      pure ("VSUM_ " ++ modTag ++ " " ++ t1 ++ t2 ++ t3 ++
        s.e_cc ++ s.ca2_cc ++ s.ca_cc ++ " " ++ s.output)
  | .EXVSUM =>
    pure ("EXVSU " ++ modTag ++ " " ++ t1 ++ t2 ++ t3 ++
      s.e_cc ++ String.mk (List.replicate (WIDTH / 4) 'F') ++ s.ca_cc ++
      " " ++ s.output)
  | .FMADD =>
    pure ("FMADD " ++ modTag ++ " " ++ t1 ++ t2 ++ t3 ++
      s.e_cc ++ s.c_cc ++ s.a_cc ++ " " ++ s.output)

/-- The header comment emitted before the records (line 197). -/
def headerLine : String :=
  "//operation op_mod src_fmt src2_fmt dst_fmt operands exp_result"

/-- The record lines produced by the outer loop (lines 228-317), with the
random stream indexed by record, lane and role (0..4 for a,b,c,d,e). -/
def genRecords (E : FFEngine) (C : Config)
    (rnd : Nat → Nat → Nat → Nat) : Option (List String) :=
  (List.range C.nr_of_stimuli).mapM (fun k => recordLine E C k (rnd k))

/-- The whole stimuli file: header line followed by the records. -/
def genFile (E : FFEngine) (C : Config)
    (rnd : Nat → Nat → Nat → Nat) : Option (List String) :=
  (genRecords E C rnd).map (fun l => headerLine :: l)

/-- The command line as seen by `main`: `argv[1]` (stimulus count, already
through `std::stoi`), `argv[2]` (operation name) and `argv[3..5]` (format
names), each `none` when `argc` is too small to reach it. -/
structure Args where
  nr : Option Nat
  opName : Option String
  fmtNames : Option (String × String × String)

/-- The initial configuration of lines 155-159. -/
def defaultConfig : Config := ⟨.SDOTP, 10, FP16, FP16, FP32⟩

/-- Argument handling, lines 162-192 of `main`: defaults, then the
argument-dependent overrides.  An operation name that matches none of the
four known names falls through the else-if chain without touching the
configuration (no `else` branch, no error); an unrecognised format name
hits the `assert(0)` in `to_desc`, modelled as `none`. -/
def configOf (a : Args) : Option Config :=
  let c0 := defaultConfig
  let c1 := match a.nr with
    | some n => { c0 with nr_of_stimuli := n }
    | none => c0
  let c2 := match a.opName with
    | some s =>
      if s = "SDOTP" then
        { c1 with op := .SDOTP, src_fmt := FP16, src2_fmt := FP16, dst_fmt := FP32 }
      else if s = "VSUM" then
        { c1 with op := .VSUM, src_fmt := FP16, src2_fmt := FP16, dst_fmt := FP16 }
      else if s = "EXVSUM" then
        { c1 with op := .EXVSUM, src_fmt := FP16, src2_fmt := FP16, dst_fmt := FP32 }
      else if s = "FMADD" then
        { c1 with op := .FMADD, src_fmt := FP32, src2_fmt := FP32, dst_fmt := FP32 }
      else c1
    | none => c1
  match a.fmtNames with
  | some (f1, f2, f3) => do
    let d1 ← to_desc f1
    let d2 ← to_desc f2
    let d3 ← to_desc f3
    pure { c2 with src_fmt := d1, src2_fmt := d2, dst_fmt := d3 }
  | none => pure c2

/-- Concatenation of a list of strings, used to state the per-lane
decomposition of the accumulator fields. -/
def strJoin : List String → String
  | [] => ""
  | s :: t => s ++ strJoin t

/-- Per-lane contribution to `e_cc` at lane `i` (lines 277-278). -/
def ePart (E : FFEngine) (C : Config) (rnd : Nat → Nat → Nat) (i : Nat) : String :=
  (if C.op = .VSUM ∧ dst_width C = 8 then "FF" else "") ++
    ts E.canon (e_fmt C) (drawBits (e_fmt C) (rnd i 4)) (dst_width C)

/-- Per-lane contribution to `d_cc` at lane `i` (line 279). -/
def dPart (E : FFEngine) (C : Config) (rnd : Nat → Nat → Nat) (i : Nat) : String :=
  ts E.canon (d_fmt C) (drawBits (d_fmt C) (rnd i 3)) (src_width C)

/-- Per-lane contribution to `c_cc` at lane `i` (line 280). -/
def cPart (E : FFEngine) (C : Config) (rnd : Nat → Nat → Nat) (i : Nat) : String :=
  ts E.canon (c_fmt C) (drawBits (c_fmt C) (rnd i 2)) (src_width C)

/-- Per-lane contribution to `b_cc` at lane `i` (line 281). -/
def bPart (E : FFEngine) (C : Config) (rnd : Nat → Nat → Nat) (i : Nat) : String :=
  ts E.canon (b_fmt C) (drawBits (b_fmt C) (rnd i 1)) (src_width C)

/-- Per-lane contribution to `a_cc` at lane `i` (line 282). -/
def aPart (E : FFEngine) (C : Config) (rnd : Nat → Nat → Nat) (i : Nat) : String :=
  ts E.canon (a_fmt C) (drawBits (a_fmt C) (rnd i 0)) (src_width C)

/-- Per-lane (d,b) pair appended to `db_cc` (line 284). -/
def dbPart (E : FFEngine) (C : Config) (rnd : Nat → Nat → Nat) (i : Nat) : String :=
  dPart E C rnd i ++ bPart E C rnd i

/-- Per-lane (c,a) pair routed into `ca_cc` or `ca2_cc` (lines 285-286). -/
def caPart (E : FFEngine) (C : Config) (rnd : Nat → Nat → Nat) (i : Nat) : String :=
  cPart E C rnd i ++ aPart E C rnd i

/-- Per-lane contribution to the result field `output` (line 288). -/
def outPart (E : FFEngine) (C : Config) (rnd : Nat → Nat → Nat) (i : Nat) : String :=
  ts E.canon C.dst_fmt
    (laneResult E C (drawBits (a_fmt C) (rnd i 0)) (drawBits (b_fmt C) (rnd i 1))
      (drawBits (c_fmt C) (rnd i 2)) (drawBits (d_fmt C) (rnd i 3))
      (drawBits (e_fmt C) (rnd i 4)))
    (dst_width C)

/-- The routing condition of line 285: the (c,a) pair goes into `ca_cc`
exactly when the operation is not VSUM, or the record index is even, or
the destination width is 8. -/
def caToCa (op : operation_e) (k D : Nat) : Prop :=
  op ≠ .VSUM ∨ k % 2 = 0 ∨ D = 8

instance (op : operation_e) (k D : Nat) : Decidable (caToCa op k D) := by
  unfold caToCa
  infer_instance

/-- A concrete engine instance used to evaluate the embedding on explicit
inputs: cast and arithmetic pass bit patterns through unchanged, and
canonicalisation truncates to the format width (the bound that
`flexfloat_get_bits` guarantees structurally). -/
def idEngine : FFEngine :=
  ⟨fun _ _ b => b, fun x y z => x + y + z, fun x y => x + y,
   fun d b => b % 2 ^ descWidth d⟩

/-- The all-zero per-record random stream, for concrete evaluation. -/
def zeroStream : Nat → Nat → Nat := fun _ _ => 0

/-- The configuration selected by the command line `(5, "FMADD")`. -/
def fmaddConfig : Config := ⟨.FMADD, 5, FP32, FP32, FP32⟩

end GenStimuli

namespace GenStimuli

/-- C1: the name-to-descriptor-to-name round trip does NOT return the
original name: the display tags are five characters wide (trailing space)
and the 8-bit names are zero-padded, so already `"FP8"` comes back as
`"FP08 "`. -/
theorem C1_counterexample :
    to_desc "FP8" = some FP8 ∧ to_string_desc FP8 = some "FP08 " ∧
      (to_desc "FP8" >>= to_string_desc) ≠ some "FP8" := by
  refine ⟨rfl, rfl, ?_⟩
  decide

/-- C1 (amended): for each of the five supported format names, converting
the name to its descriptor with `to_desc` and back with `to_string_desc`
yields the canonical five-character display tag — the name padded with a
trailing space, with the digit part of the 8-bit names zero-padded to two
digits — rather than the original name string. -/
theorem C1_amended_roundtrip :
    (to_desc "FP32" >>= to_string_desc) = some "FP32 " ∧
    (to_desc "FP16" >>= to_string_desc) = some "FP16 " ∧
    (to_desc "FP8" >>= to_string_desc) = some "FP08 " ∧
    (to_desc "AL16" >>= to_string_desc) = some "AL16 " ∧
    (to_desc "AL8" >>= to_string_desc) = some "AL08 " := by
  refine ⟨rfl, rfl, rfl, rfl, rfl⟩

/-- C4: the operand source width equals the destination width `D` for
FMADD, equals `D` for EXVSUM when `D = 8`, and equals `D / 2` in every
other case. -/
theorem C4_src_width (op : operation_e) (D : Nat) :
    (op = .FMADD → src_width_of op D = D) ∧
    (op = .EXVSUM → D = 8 → src_width_of op D = D) ∧
    (op ≠ .FMADD → ¬(op = .EXVSUM ∧ D = 8) → src_width_of op D = D / 2) := by
  refine ⟨?_, ?_, ?_⟩
  · rintro rfl
    simp [src_width_of, is_fma, is_8bit_exvsum]
  · rintro rfl rfl
    simp [src_width_of, is_fma, is_8bit_exvsum]
  · intro h1 h2
    cases op <;> simp_all [src_width_of, is_fma, is_8bit_exvsum]

/-- Witness for C4 at concrete inputs: FMADD keeps `D = 32`, 8-bit EXVSUM
keeps `D = 8`, and SDOTP at `D = 32` halves to 16. -/
theorem C4_witness :
    src_width_of .FMADD 32 = 32 ∧ src_width_of .EXVSUM 8 = 8 ∧
      src_width_of .SDOTP 32 = 16 :=
  ⟨(C4_src_width .FMADD 32).1 rfl,
   (C4_src_width .EXVSUM 8).2.1 rfl rfl,
   (C4_src_width .SDOTP 32).2.2 (by decide) (by decide)⟩

theorem hexCharsAux_zero (fuel : Nat) : hexCharsAux fuel 0 = [] := by
  cases fuel <;> simp [hexCharsAux]

theorem hexCharsAux_fuel_irrel :
    ∀ fuel fuel2 n : Nat, n ≤ fuel → n ≤ fuel2 →
      hexCharsAux fuel n = hexCharsAux fuel2 n := by
  intro fuel
  induction fuel with
  | zero =>
    intro fuel2 n h1 _
    have : n = 0 := Nat.le_zero.mp h1
    subst this
    rw [hexCharsAux_zero, hexCharsAux_zero]
  | succ fuel ih =>
    intro fuel2 n h1 h2
    by_cases hn : n = 0
    · subst hn
      rw [hexCharsAux_zero, hexCharsAux_zero]
    · cases fuel2 with
      | zero => omega
      | succ fuel2 =>
        simp only [hexCharsAux, if_neg hn]
        have hdiv : n / 16 < n := Nat.div_lt_self (Nat.pos_of_ne_zero hn) (by norm_num)
        rw [ih fuel2 (n / 16) (by omega) (by omega)]

theorem hexChars_succ (n : Nat) (hn : n ≠ 0) :
    hexChars n = hexChars (n / 16) ++ [hexDigit n] := by
  unfold hexChars
  cases n with
  | zero => exact absurd rfl hn
  | succ m =>
    simp only [hexCharsAux]
    rw [if_neg hn]
    congr 1
    have hdiv : (m + 1) / 16 < m + 1 := Nat.div_lt_self (Nat.succ_pos m) (by norm_num)
    exact hexCharsAux_fuel_irrel m ((m + 1) / 16) ((m + 1) / 16) (by omega) le_rfl

theorem hexChars_length_le : ∀ k n : Nat, n < 16 ^ k → (hexChars n).length ≤ k := by
  intro k
  induction k with
  | zero =>
    intro n h
    have : n = 0 := by simpa using Nat.lt_one_iff.mp h
    subst this
    rw [show hexChars 0 = [] from rfl]
    simp
  | succ k ih =>
    intro n h
    by_cases hn : n = 0
    · subst hn
      rw [show hexChars 0 = [] from rfl]
      simp
    · rw [hexChars_succ n hn]
      have hlt : n / 16 < 16 ^ k := by
        rw [Nat.div_lt_iff_lt_mul (by norm_num)]
        calc n < 16 ^ (k + 1) := h
        _ = 16 ^ k * 16 := by ring
      have := ih (n / 16) hlt
      simp only [List.length_append, List.length_cons, List.length_nil]
      omega

theorem hexStr_length_le {n k : Nat} (h : n < 16 ^ k) (hk : 0 < k) :
    (hexStr n).length ≤ k := by
  unfold hexStr
  split
  · simpa using hk
  · exact hexChars_length_le k n h

theorem padLeft_length {c : Char} {w : Nat} {s : String} (h : s.length ≤ w) :
    (padLeft c w s).length = w := by
  unfold padLeft
  rw [String.length_append]
  have : (String.mk (List.replicate (w - s.length) c)).length = w - s.length := by
    show (List.replicate (w - s.length) c).length = w - s.length
    simp
  omega

theorem hexDigit_mem (n : Nat) : hexDigit n ∈ hexDigitChars := by
  have h16 : n % 16 < 16 := Nat.mod_lt _ (by norm_num)
  unfold hexDigit
  revert h16
  generalize n % 16 = m
  intro h16
  interval_cases m <;> decide

theorem mem_hexChars {c : Char} : ∀ n : Nat, c ∈ hexChars n → c ∈ hexDigitChars := by
  intro n
  induction n using Nat.strong_induction_on with
  | _ n ih =>
    intro hc
    by_cases hn : n = 0
    · subst hn
      rw [show hexChars 0 = [] from rfl] at hc
      simp at hc
    · rw [hexChars_succ n hn] at hc
      rcases List.mem_append.mp hc with h | h
      · exact ih (n / 16) (Nat.div_lt_self (Nat.pos_of_ne_zero hn) (by norm_num)) h
      · rw [List.mem_singleton.mp h]
        exact hexDigit_mem n

theorem mem_hexStr {c : Char} {n : Nat} (h : c ∈ (hexStr n).data) :
    c ∈ hexDigitChars := by
  unfold hexStr at h
  split at h
  · have h2 : c ∈ ['0'] := by
      have hd : ("0" : String).data = ['0'] := rfl
      rwa [hd] at h
    rw [List.mem_singleton.mp h2]
    decide
  · exact mem_hexChars n h

theorem mem_padLeft_hexStr {c : Char} {w n : Nat}
    (h : c ∈ (padLeft '0' w (hexStr n)).data) : c ∈ hexDigitChars := by
  unfold padLeft at h
  rw [String.data_append] at h
  rcases List.mem_append.mp h with h | h
  · have h0 : c ∈ List.replicate (w - (hexStr n).length) '0' := h
    rw [List.eq_of_mem_replicate h0]
    decide
  · exact mem_hexStr h

theorem hexDigitChars_ne_F : ∀ c ∈ hexDigitChars, c ≠ 'F' := by decide

theorem pow16_div4 {w : Nat} (h : 4 ∣ w) : (16 : Nat) ^ (w / 4) = 2 ^ w := by
  have : (16 : Nat) = 2 ^ 4 := by norm_num
  rw [this, ← Nat.pow_mul, Nat.mul_div_cancel' h]

theorem ts_eq (canon : flexfloat_desc_t → Nat → Nat) (d : flexfloat_desc_t)
    (bits width : Nat) (h32 : descWidth d ≤ 32)
    (hb : canon d bits < 2 ^ descWidth d) :
    ts canon d bits width =
      String.mk (List.replicate ((width - descWidth d) / 4) 'F') ++
        padLeft '0' (descWidth d / 4) (hexStr (canon d bits)) := by
  have hmask : canon d bits % 2 ^ 32 = canon d bits :=
    Nat.mod_eq_of_lt (lt_of_lt_of_le hb (Nat.pow_le_pow_right (by norm_num) h32))
  show (if (width - descWidth d) / 4 ≠ 0 then
          String.mk (List.replicate ((width - descWidth d) / 4) 'F') else "") ++
        padLeft '0' (descWidth d / 4) (hexStr (canon d bits % 2 ^ 32)) = _
  rw [hmask]
  split
  · rfl
  · rename_i hf
    rw [not_not.mp hf]
    rfl

theorem ts_length (canon : flexfloat_desc_t → Nat → Nat) (d : flexfloat_desc_t)
    (bits width : Nat) (h4w : 4 ∣ width) (h4d : 4 ∣ descWidth d)
    (hle : descWidth d ≤ width) (h32 : descWidth d ≤ 32)
    (hb : canon d bits < 2 ^ descWidth d) :
    (ts canon d bits width).length = width / 4 := by
  rw [ts_eq canon d bits width h32 hb, String.length_append]
  have hpos : 0 < descWidth d / 4 := by
    have : 1 ≤ descWidth d := Nat.succ_le_of_lt (Nat.pos_of_ne_zero (by
      unfold descWidth; omega))
    omega
  have hhex : (hexStr (canon d bits)).length ≤ descWidth d / 4 :=
    hexStr_length_le (by rwa [pow16_div4 h4d]) hpos
  rw [padLeft_length hhex]
  have : (String.mk (List.replicate ((width - descWidth d) / 4) 'F')).length =
      (width - descWidth d) / 4 := by simp [String.length]
  omega

/-- C3: for every value whose canonical bit pattern fits its format and
every lane width that is a multiple of 4 and at least the format width
(and within the 32-bit range the `(unsigned int)` cast in the encoder can
represent), `ts` returns `(width - format_width)/4` literal `F` filler
characters followed by the value's own bit pattern zero-padded to
`format_width/4` hex digits, for a total of exactly `width/4` characters,
filler strictly preceding the value digits. -/
theorem C3_to_hex_shape (canon : flexfloat_desc_t → Nat → Nat)
    (d : flexfloat_desc_t) (bits width : Nat)
    (h4w : 4 ∣ width) (h4d : 4 ∣ descWidth d) (hle : descWidth d ≤ width)
    (h32 : descWidth d ≤ 32) (hb : canon d bits < 2 ^ descWidth d) :
    ts canon d bits width =
      String.mk (List.replicate ((width - descWidth d) / 4) 'F') ++
        padLeft '0' (descWidth d / 4) (hexStr (canon d bits)) ∧
    (ts canon d bits width).length = width / 4 ∧
    (padLeft '0' (descWidth d / 4) (hexStr (canon d bits))).length =
      descWidth d / 4 := by
  refine ⟨ts_eq canon d bits width h32 hb,
    ts_length canon d bits width h4w h4d hle h32 hb, ?_⟩
  have hpos : 0 < descWidth d / 4 := by
    have : 1 ≤ descWidth d := Nat.succ_le_of_lt (Nat.pos_of_ne_zero (by
      unfold descWidth; omega))
    omega
  exact padLeft_length (hexStr_length_le (by rwa [pow16_div4 h4d]) hpos)

/-- Witness for C3: an FP16 value with bit pattern 0x1234 encoded at lane
width 32 yields two times two filler digits, then the four pattern digits:
"FFFF1234". -/
theorem C3_witness :
    ts (fun _ b => b) FP16 4660 32 =
      String.mk (List.replicate ((32 - descWidth FP16) / 4) 'F') ++
        padLeft '0' (descWidth FP16 / 4) (hexStr 4660) ∧
    (ts (fun _ b => b) FP16 4660 32).length = 32 / 4 ∧
    ts (fun _ b => b) FP16 4660 32 = "FFFF1234" :=
  ⟨(C3_to_hex_shape (fun _ b => b) FP16 4660 32 (by decide) (by decide)
      (by decide) (by decide) (by decide)).1,
   (C3_to_hex_shape (fun _ b => b) FP16 4660 32 (by decide) (by decide)
      (by decide) (by decide) (by decide)).2.1,
   by decide⟩

/-- C9: casting a value to its own format (which the engine contract says
re-normalizes through the double value, i.e. applies the canonicalisation
`canon`) and then hex-encoding it yields the same string as hex-encoding it
directly, because the encoder itself canonicalises before bit extraction
and canonicalisation is idempotent. -/
theorem C9_cast_idempotent_encode (canon : flexfloat_desc_t → Nat → Nat)
    (hidem : ∀ d b, canon d (canon d b) = canon d b)
    (d : flexfloat_desc_t) (bits width : Nat) :
    ts canon d (ff_cast_same canon d bits) width = ts canon d bits width := by
  unfold ff_cast_same ts
  rw [hidem]

/-- Witness for C9 with the identity canonicalisation (trivially
idempotent) on a concrete FP16 value. -/
theorem C9_witness :
    ts (fun _ b => b) FP16 (ff_cast_same (fun _ b => b) FP16 4660) 32 =
      ts (fun _ b => b) FP16 4660 32 :=
  C9_cast_idempotent_encode (fun _ b => b) (fun _ _ => rfl) FP16 4660 32

theorem laneStep_eq (E : FFEngine) (C : Config) (k : Nat)
    (rnd : Nat → Nat → Nat) (s : Accs) (i : Nat) :
    laneStep E C k rnd s i =
      ⟨s.e_cc ++ ePart E C rnd i, s.d_cc ++ dPart E C rnd i,
       s.c_cc ++ cPart E C rnd i, s.b_cc ++ bPart E C rnd i,
       s.a_cc ++ aPart E C rnd i, s.db_cc ++ dbPart E C rnd i,
       s.ca_cc ++ (if caToCa C.op k (dst_width C) then caPart E C rnd i else ""),
       s.ca2_cc ++ (if caToCa C.op k (dst_width C) then "" else caPart E C rnd i),
       s.output ++ outPart E C rnd i⟩ := by
  by_cases hc : caToCa C.op k (dst_width C) <;>
    · unfold caToCa at hc
      simp [laneStep, ePart, dPart, cPart, bPart, aPart, dbPart, caPart,
        outPart, caToCa, hc, String.append_assoc]

theorem foldl_laneStep (E : FFEngine) (C : Config) (k : Nat)
    (rnd : Nat → Nat → Nat) :
    ∀ (l : List Nat) (s : Accs),
      l.foldl (laneStep E C k rnd) s =
        ⟨s.e_cc ++ strJoin (l.map (ePart E C rnd)),
         s.d_cc ++ strJoin (l.map (dPart E C rnd)),
         s.c_cc ++ strJoin (l.map (cPart E C rnd)),
         s.b_cc ++ strJoin (l.map (bPart E C rnd)),
         s.a_cc ++ strJoin (l.map (aPart E C rnd)),
         s.db_cc ++ strJoin (l.map (dbPart E C rnd)),
         s.ca_cc ++ (if caToCa C.op k (dst_width C) then
           strJoin (l.map (caPart E C rnd)) else ""),
         s.ca2_cc ++ (if caToCa C.op k (dst_width C) then ""
           else strJoin (l.map (caPart E C rnd))),
         s.output ++ strJoin (l.map (outPart E C rnd))⟩ := by
  intro l
  induction l with
  | nil =>
    intro s
    cases s
    by_cases hc : caToCa C.op k (dst_width C) <;> simp [strJoin, hc]
  | cons i t ih =>
    intro s
    rw [List.foldl_cons, laneStep_eq, ih]
    by_cases hc : caToCa C.op k (dst_width C) <;>
      simp [strJoin, hc, String.append_assoc]

theorem recordAccs_eq (E : FFEngine) (C : Config) (k : Nat)
    (rnd : Nat → Nat → Nat) :
    recordAccs E C k rnd =
      ⟨strJoin ((laneIdxs C).map (ePart E C rnd)),
       strJoin ((laneIdxs C).map (dPart E C rnd)),
       strJoin ((laneIdxs C).map (cPart E C rnd)),
       strJoin ((laneIdxs C).map (bPart E C rnd)),
       strJoin ((laneIdxs C).map (aPart E C rnd)),
       strJoin ((laneIdxs C).map (dbPart E C rnd)),
       (if caToCa C.op k (dst_width C) then
         strJoin ((laneIdxs C).map (caPart E C rnd)) else ""),
       (if caToCa C.op k (dst_width C) then ""
         else strJoin ((laneIdxs C).map (caPart E C rnd))),
       strJoin ((laneIdxs C).map (outPart E C rnd))⟩ := by
  unfold recordAccs initAccs
  rw [foldl_laneStep]
  by_cases hc : caToCa C.op k (dst_width C) <;> simp [hc]

/-- C7: the per-lane golden result is obtained by casting all five role
values up to the FP64 reference format, applying the operation's formula
at that wide precision (SDOTP as two chained fused multiply-adds through
the accumulator seed `e`, VSUM/EXVSUM as two chained additions, FMADD as a
single fused multiply-add), and casting the wide result down to the
destination format; in every lane of every record the result field
contribution is the hex encoding of exactly that pipeline. -/
theorem C7_golden_pipeline (E : FFEngine) (C : Config) :
    (∀ a_bin b_bin c_bin d_bin e_bin : Nat,
      laneResult E C a_bin b_bin c_bin d_bin e_bin =
        goldenSpec E C a_bin b_bin c_bin d_bin e_bin) ∧
    ∀ (k : Nat) (rnd : Nat → Nat → Nat) (s : Accs) (i : Nat),
      (laneStep E C k rnd s i).output =
        s.output ++ ts E.canon C.dst_fmt
          (goldenSpec E C
            (drawBits (a_fmt C) (rnd i 0)) (drawBits (b_fmt C) (rnd i 1))
            (drawBits (c_fmt C) (rnd i 2)) (drawBits (d_fmt C) (rnd i 3))
            (drawBits (e_fmt C) (rnd i 4)))
          (dst_width C) := by
  have h1 : ∀ a_bin b_bin c_bin d_bin e_bin : Nat,
      laneResult E C a_bin b_bin c_bin d_bin e_bin =
        goldenSpec E C a_bin b_bin c_bin d_bin e_bin := by
    intro a_bin b_bin c_bin d_bin e_bin
    unfold laneResult goldenSpec goldenFormula
    cases C.op <;> rfl
  refine ⟨h1, ?_⟩
  intro k rnd s i
  rw [laneStep_eq]
  show s.output ++ outPart E C rnd i = _
  unfold outPart
  rw [h1]

/-- C6: for VSUM with destination width different from the datapath width
`WIDTH`, the (c,a) hex pair of every lane is appended to `ca_cc` exactly
when the record index is even or the destination width is 8, and to
`ca2_cc` otherwise (so consecutive records alternate the receiving field);
for operations other than VSUM the pairs always go to `ca_cc`. -/
theorem C6_ca_routing (E : FFEngine) (C : Config) (k : Nat)
    (rnd : Nat → Nat → Nat) :
    (C.op = .VSUM → dst_width C ≠ WIDTH →
      ((k % 2 = 0 ∨ dst_width C = 8) →
        (recordAccs E C k rnd).ca_cc =
          strJoin ((laneIdxs C).map (caPart E C rnd)) ∧
        (recordAccs E C k rnd).ca2_cc = "") ∧
      (k % 2 ≠ 0 → dst_width C ≠ 8 →
        (recordAccs E C k rnd).ca2_cc =
          strJoin ((laneIdxs C).map (caPart E C rnd)) ∧
        (recordAccs E C k rnd).ca_cc = "")) ∧
    (C.op ≠ .VSUM →
      (recordAccs E C k rnd).ca_cc =
        strJoin ((laneIdxs C).map (caPart E C rnd)) ∧
      (recordAccs E C k rnd).ca2_cc = "") := by
  rw [recordAccs_eq]
  constructor
  · intro _ _
    constructor
    · intro hk
      have hc : caToCa C.op k (dst_width C) := Or.inr hk
      simp [hc]
    · intro hk h8
      have hc : ¬caToCa C.op k (dst_width C) := by
        unfold caToCa
        push_neg
        refine ⟨by simp_all, hk, h8⟩
      simp [hc]
  · intro hv
    have hc : caToCa C.op k (dst_width C) := Or.inl hv
    simp [hc]

/-- Witness for C6: the default VSUM configuration (destination FP16, so
`D = 16`, neither the datapath width 32 nor 8) at even record index 0
routes every (c,a) pair into `ca_cc` and leaves `ca2_cc` empty. -/
theorem C6_witness :
    (recordAccs idEngine ⟨.VSUM, 10, FP16, FP16, FP16⟩ 0 zeroStream).ca_cc =
      strJoin ((laneIdxs ⟨.VSUM, 10, FP16, FP16, FP16⟩).map
        (caPart idEngine ⟨.VSUM, 10, FP16, FP16, FP16⟩ zeroStream)) ∧
    (recordAccs idEngine ⟨.VSUM, 10, FP16, FP16, FP16⟩ 0 zeroStream).ca2_cc =
      "" :=
  ((C6_ca_routing idEngine ⟨.VSUM, 10, FP16, FP16, FP16⟩ 0 zeroStream).1
    rfl (by decide)).1 (Or.inl rfl)

theorem ts_own (canon : flexfloat_desc_t → Nat → Nat) (d : flexfloat_desc_t)
    (bits : Nat) (h4 : 4 ∣ descWidth d) (h32 : descWidth d ≤ 32)
    (hb : canon d bits < 2 ^ descWidth d) :
    ts canon d bits (descWidth d) =
      padLeft '0' (descWidth d / 4) (hexStr (canon d bits)) ∧
    (ts canon d bits (descWidth d)).length = descWidth d / 4 ∧
    ∀ c ∈ (ts canon d bits (descWidth d)).data, c ∈ hexDigitChars := by
  have he : ts canon d bits (descWidth d) =
      padLeft '0' (descWidth d / 4) (hexStr (canon d bits)) := by
    rw [ts_eq canon d bits _ h32 hb, Nat.sub_self]
    rfl
  have hpos : 0 < descWidth d / 4 := by
    have h1 : 1 ≤ descWidth d := by
      unfold descWidth
      omega
    omega
  refine ⟨he, ?_, ?_⟩
  · rw [he]
    exact padLeft_length (hexStr_length_le (by rwa [pow16_div4 h4]) hpos)
  · intro c hcmem
    rw [he] at hcmem
    exact mem_padLeft_hexStr hcmem

/-- C5: the inner lane loop iterates `WIDTH / D` lanes, except for VSUM at
destination width 8 where it stops after `WIDTH / 16` lanes; in that case
the finished record's `ca2_cc` has been replaced wholesale by a
`WIDTH/4`-character `F` filler and the result field begins with exactly
`WIDTH/8` literal `F` characters (the character right after them is a
lowercase hex digit, never `F`). -/
theorem C5_lane_count_padding (E : FFEngine) (C : Config) (k : Nat)
    (rnd : Nat → Nat → Nat)
    (hcanon : ∀ d b, E.canon d b < 2 ^ descWidth d) :
    (¬(C.op = .VSUM ∧ dst_width C = 8) →
      (laneIdxs C).length = WIDTH / dst_width C) ∧
    (C.op = .VSUM → dst_width C = 8 →
      (laneIdxs C).length = WIDTH / 16 ∧
      (recordAccsFinal E C k rnd).ca2_cc =
        String.mk (List.replicate (WIDTH / 4) 'F') ∧
      (recordAccsFinal E C k rnd).output.data.take (WIDTH / 8) =
        List.replicate (WIDTH / 8) 'F' ∧
      ∀ c, (recordAccsFinal E C k rnd).output.data[WIDTH / 8]? = some c →
        c ≠ 'F') := by
  constructor
  · intro hns
    unfold laneIdxs
    rw [List.takeWhile_eq_self_iff.mpr ?_, List.length_range]
    intro i _
    have hni : ¬(C.op = .VSUM ∧ dst_width C = 8 ∧ WIDTH / 16 ≤ i) :=
      fun h => hns ⟨h.1, h.2.1⟩
    simp [hni]
  · intro hop h8
    have hidx : laneIdxs C = [0, 1] := by
      unfold laneIdxs
      rw [hop, h8]
      rfl
    have hfin : recordAccsFinal E C k rnd =
        { recordAccs E C k rnd with
          output := String.mk (List.replicate (WIDTH / 8) 'F') ++
            (recordAccs E C k rnd).output
          ca2_cc := String.mk (List.replicate (WIDTH / 4) 'F') } := by
      unfold recordAccsFinal
      rw [if_pos ⟨hop, h8⟩]
    have hout : (recordAccs E C k rnd).output =
        outPart E C rnd 0 ++ (outPart E C rnd 1 ++ "") := by
      rw [recordAccs_eq, hidx]
      rfl
    have hdw : descWidth C.dst_fmt = dst_width C := rfl
    have h4 : 4 ∣ descWidth C.dst_fmt := by
      rw [hdw, h8]
      decide
    have h32 : descWidth C.dst_fmt ≤ 32 := by
      rw [hdw, h8]
      norm_num
    have hshape : ∀ i : Nat, (outPart E C rnd i).length = 2 ∧
        ∀ c ∈ (outPart E C rnd i).data, c ∈ hexDigitChars := by
      intro i
      have hown := ts_own E.canon C.dst_fmt
        (laneResult E C (drawBits (a_fmt C) (rnd i 0)) (drawBits (b_fmt C) (rnd i 1))
          (drawBits (c_fmt C) (rnd i 2)) (drawBits (d_fmt C) (rnd i 3))
          (drawBits (e_fmt C) (rnd i 4)))
        h4 h32 (hcanon _ _)
      have hw : descWidth C.dst_fmt / 4 = 2 := by
        rw [hdw, h8]
      constructor
      · have h1 := hown.2.1
        rw [hw] at h1
        exact h1
      · exact hown.2.2
    refine ⟨by rw [hidx]; rfl, by rw [hfin], ?_, ?_⟩
    · rw [hfin]
      show (String.mk (List.replicate (WIDTH / 8) 'F') ++
        (recordAccs E C k rnd).output).data.take (WIDTH / 8) = _
      rw [String.data_append]
      show (List.replicate (WIDTH / 8) 'F' ++
        (recordAccs E C k rnd).output.data).take (WIDTH / 8) = _
      rw [List.take_left' (by simp)]
    · intro c hc
      rw [hfin] at hc
      have hdatas : (String.mk (List.replicate (WIDTH / 8) 'F') ++
          (recordAccs E C k rnd).output).data =
          List.replicate (WIDTH / 8) 'F' ++
            ((outPart E C rnd 0).data ++ ((outPart E C rnd 1).data ++ [])) := by
        rw [String.data_append, hout, String.data_append, String.data_append]
      rw [show ({ recordAccs E C k rnd with
          output := String.mk (List.replicate (WIDTH / 8) 'F') ++
            (recordAccs E C k rnd).output
          ca2_cc := String.mk (List.replicate (WIDTH / 4) 'F') } : Accs).output =
          String.mk (List.replicate (WIDTH / 8) 'F') ++
            (recordAccs E C k rnd).output from rfl, hdatas] at hc
      rw [List.getElem?_append_right (by simp)] at hc
      have hzero : WIDTH / 8 - (List.replicate (WIDTH / 8) 'F').length = 0 := by
        simp
      rw [hzero] at hc
      have hlen0 : 0 < (outPart E C rnd 0).data.length := by
        have h1 := (hshape 0).1
        have h2 : (outPart E C rnd 0).length = (outPart E C rnd 0).data.length := rfl
        omega
      rw [List.getElem?_append_left hlen0] at hc
      exact hexDigitChars_ne_F c ((hshape 0).2 c (List.getElem?_mem hc))

theorem idEngine_canon_lt : ∀ (d : flexfloat_desc_t) (b : Nat),
    idEngine.canon d b < 2 ^ descWidth d := by
  intro d b
  exact Nat.mod_lt _ (by positivity)

/-- Witness for C5: a concrete VSUM/FP16/FP16/FP8 record (destination
width 8) iterates `WIDTH/16 = 2` lanes, replaces `ca2_cc` with the
8-character `F` filler, and its result field starts with exactly four `F`
characters. -/
theorem C5_witness :
    (laneIdxs ⟨.VSUM, 10, FP16, FP16, FP8⟩).length = WIDTH / 16 ∧
    (recordAccsFinal idEngine ⟨.VSUM, 10, FP16, FP16, FP8⟩ 0 zeroStream).ca2_cc =
      String.mk (List.replicate (WIDTH / 4) 'F') ∧
    (recordAccsFinal idEngine ⟨.VSUM, 10, FP16, FP16, FP8⟩ 0
        zeroStream).output.data.take (WIDTH / 8) =
      List.replicate (WIDTH / 8) 'F' :=
  ⟨((C5_lane_count_padding idEngine ⟨.VSUM, 10, FP16, FP16, FP8⟩ 0 zeroStream
      idEngine_canon_lt).2 rfl rfl).1,
   ((C5_lane_count_padding idEngine ⟨.VSUM, 10, FP16, FP16, FP8⟩ 0 zeroStream
      idEngine_canon_lt).2 rfl rfl).2.1,
   ((C5_lane_count_padding idEngine ⟨.VSUM, 10, FP16, FP16, FP8⟩ 0 zeroStream
      idEngine_canon_lt).2 rfl rfl).2.2.1⟩

theorem strJoin_length (f : Nat → String) (m : Nat) :
    ∀ l : List Nat, (∀ x ∈ l, (f x).length = m) →
      (strJoin (l.map f)).length = l.length * m := by
  intro l
  induction l with
  | nil =>
    intro _
    simp [strJoin]
  | cons i t ih =>
    intro h
    simp only [List.map_cons, strJoin, List.length_cons]
    rw [String.length_append, ih (fun x hx => h x (List.mem_cons_of_mem i hx)),
      h i (List.mem_cons_self i t)]
    ring

/-- C2 is false on the code in two ways, both visible on concrete records:
for VSUM at destination width 8 each lane contributes a literal `"FF"` in
front of its `D/4` `e` digits, so `e_cc` is longer than `lanes * D/4`; and
the result field is encoded at the destination width, not at `src_width`
(here: an SDOTP result lane has 8 hex digits while `src_width/4 = 4`). -/
theorem C2_counterexample :
    (recordAccs idEngine ⟨.VSUM, 10, FP16, FP16, FP8⟩ 0 zeroStream).e_cc =
      "FF00FF00" ∧
    (recordAccs idEngine ⟨.VSUM, 10, FP16, FP16, FP8⟩ 0 zeroStream).e_cc.length ≠
      (laneIdxs ⟨.VSUM, 10, FP16, FP16, FP8⟩).length *
        (dst_width ⟨.VSUM, 10, FP16, FP16, FP8⟩ / 4) ∧
    (recordAccs idEngine defaultConfig 0 zeroStream).output.length ≠
      (laneIdxs defaultConfig).length * (src_width defaultConfig / 4) := by
  refine ⟨by decide, by decide, by decide⟩

/-- C2 (amended): per lane, `e_cc` receives the hex encoding of `e` at
destination width `D` (that is `D/4` digits), preceded by a literal `"FF"`
exactly when the operation is VSUM and `D = 8`; the operand fields
`a_cc`..`d_cc` are encoded at `src_width`; and the result field is encoded
at destination width `D` (not at `src_width`). -/
theorem C2_amended_field_widths (E : FFEngine) (C : Config) (k : Nat)
    (rnd : Nat → Nat → Nat)
    (hcanon : ∀ d b, E.canon d b < 2 ^ descWidth d)
    (h4D : 4 ∣ dst_width C) (hD32 : dst_width C ≤ 32)
    (h4s : 4 ∣ src_width C)
    (hfmt : ∀ f ∈ [a_fmt C, b_fmt C, c_fmt C, d_fmt C],
      4 ∣ descWidth f ∧ descWidth f ≤ src_width C ∧ descWidth f ≤ 32) :
    (recordAccs E C k rnd).e_cc.length =
      (laneIdxs C).length *
        ((if C.op = .VSUM ∧ dst_width C = 8 then 2 else 0) + dst_width C / 4) ∧
    (recordAccs E C k rnd).a_cc.length =
      (laneIdxs C).length * (src_width C / 4) ∧
    (recordAccs E C k rnd).b_cc.length =
      (laneIdxs C).length * (src_width C / 4) ∧
    (recordAccs E C k rnd).c_cc.length =
      (laneIdxs C).length * (src_width C / 4) ∧
    (recordAccs E C k rnd).d_cc.length =
      (laneIdxs C).length * (src_width C / 4) ∧
    (recordAccs E C k rnd).output.length =
      (laneIdxs C).length * (dst_width C / 4) := by
  obtain ⟨hfa, hfb, hfc, hfd⟩ :
      (4 ∣ descWidth (a_fmt C) ∧ descWidth (a_fmt C) ≤ src_width C ∧
        descWidth (a_fmt C) ≤ 32) ∧
      (4 ∣ descWidth (b_fmt C) ∧ descWidth (b_fmt C) ≤ src_width C ∧
        descWidth (b_fmt C) ≤ 32) ∧
      (4 ∣ descWidth (c_fmt C) ∧ descWidth (c_fmt C) ≤ src_width C ∧
        descWidth (c_fmt C) ≤ 32) ∧
      (4 ∣ descWidth (d_fmt C) ∧ descWidth (d_fmt C) ≤ src_width C ∧
        descWidth (d_fmt C) ≤ 32) := by
    refine ⟨hfmt _ ?_, hfmt _ ?_, hfmt _ ?_, hfmt _ ?_⟩ <;> simp
  rw [recordAccs_eq]
  refine ⟨?_, ?_, ?_, ?_, ?_, ?_⟩
  · show (strJoin ((laneIdxs C).map (ePart E C rnd))).length = _
    apply strJoin_length
    intro i _
    unfold ePart
    rw [String.length_append,
      ts_length E.canon (e_fmt C) _ (dst_width C) h4D h4D le_rfl hD32 (hcanon _ _)]
    by_cases hv : C.op = .VSUM ∧ dst_width C = 8
    · rw [if_pos hv, if_pos hv]
      have h2 : ("FF" : String).length = 2 := rfl
      omega
    · rw [if_neg hv, if_neg hv]
      have h0 : ("" : String).length = 0 := rfl
      omega
  · show (strJoin ((laneIdxs C).map (aPart E C rnd))).length = _
    apply strJoin_length
    intro i _
    exact ts_length E.canon (a_fmt C) _ (src_width C) h4s hfa.1 hfa.2.1 hfa.2.2
      (hcanon _ _)
  · show (strJoin ((laneIdxs C).map (bPart E C rnd))).length = _
    apply strJoin_length
    intro i _
    exact ts_length E.canon (b_fmt C) _ (src_width C) h4s hfb.1 hfb.2.1 hfb.2.2
      (hcanon _ _)
  · show (strJoin ((laneIdxs C).map (cPart E C rnd))).length = _
    apply strJoin_length
    intro i _
    exact ts_length E.canon (c_fmt C) _ (src_width C) h4s hfc.1 hfc.2.1 hfc.2.2
      (hcanon _ _)
  · show (strJoin ((laneIdxs C).map (dPart E C rnd))).length = _
    apply strJoin_length
    intro i _
    exact ts_length E.canon (d_fmt C) _ (src_width C) h4s hfd.1 hfd.2.1 hfd.2.2
      (hcanon _ _)
  · show (strJoin ((laneIdxs C).map (outPart E C rnd))).length = _
    apply strJoin_length
    intro i _
    exact ts_length E.canon C.dst_fmt _ (dst_width C) h4D h4D le_rfl hD32
      (hcanon _ _)

/-- Witness for C2 (amended) on the default SDOTP configuration: one lane,
`e_cc` 8 digits at `D = 32` with no `"FF"` marker, each operand field 4
digits at `src_width = 16`, result 8 digits at `D = 32`. -/
theorem C2_amended_witness :
    (recordAccs idEngine defaultConfig 0 zeroStream).e_cc.length =
      (laneIdxs defaultConfig).length *
        ((if defaultConfig.op = .VSUM ∧ dst_width defaultConfig = 8 then 2
          else 0) + dst_width defaultConfig / 4) ∧
    (recordAccs idEngine defaultConfig 0 zeroStream).a_cc.length =
      (laneIdxs defaultConfig).length * (src_width defaultConfig / 4) ∧
    (recordAccs idEngine defaultConfig 0 zeroStream).b_cc.length =
      (laneIdxs defaultConfig).length * (src_width defaultConfig / 4) ∧
    (recordAccs idEngine defaultConfig 0 zeroStream).c_cc.length =
      (laneIdxs defaultConfig).length * (src_width defaultConfig / 4) ∧
    (recordAccs idEngine defaultConfig 0 zeroStream).d_cc.length =
      (laneIdxs defaultConfig).length * (src_width defaultConfig / 4) ∧
    (recordAccs idEngine defaultConfig 0 zeroStream).output.length =
      (laneIdxs defaultConfig).length * (dst_width defaultConfig / 4) :=
  C2_amended_field_widths idEngine defaultConfig 0 zeroStream
    idEngine_canon_lt (by decide) (by decide) (by decide) (by decide)

theorem mapM_option_eq_some {α β : Type} (f : α → Option β) (g : α → β) :
    ∀ l : List α, (∀ x ∈ l, f x = some (g x)) → l.mapM f = some (l.map g) := by
  intro l
  induction l with
  | nil =>
    intro _
    rfl
  | cons x t ih =>
    intro h
    rw [List.mapM_cons, h x (List.mem_cons_self x t),
      ih (fun y hy => h y (List.mem_cons_of_mem x hy))]
    rfl

theorem ts_self_raw (canon : flexfloat_desc_t → Nat → Nat)
    (d : flexfloat_desc_t) (bits : Nat) :
    ts canon d bits (descWidth d) =
      padLeft '0' (descWidth d / 4) (hexStr (canon d bits % 2 ^ 32)) := by
  simp only [ts, descWidth]
  rw [Nat.sub_self]
  simp

theorem ts_own32 (canon : flexfloat_desc_t → Nat → Nat) (d : flexfloat_desc_t)
    (bits : Nat) (h32 : descWidth d = 32) :
    (ts canon d bits (descWidth d)).length = 8 ∧
    ∀ c ∈ (ts canon d bits (descWidth d)).data, c ∈ hexDigitChars := by
  have he := ts_self_raw canon d bits
  constructor
  · rw [he, h32]
    exact padLeft_length (hexStr_length_le (by
      calc canon d bits % 2 ^ 32 < 2 ^ 32 := Nat.mod_lt _ (by positivity)
      _ ≤ 16 ^ 8 := by norm_num) (by norm_num))
  · intro c hcm
    rw [he] at hcm
    exact mem_padLeft_hexStr hcm

/-- C8: with arguments `(5, "FMADD")` and no format arguments, the
configuration is FMADD with all three formats FP32 and 5 stimuli, and the
generated file is the header followed by exactly 5 record lines, each
starting with the tag `FMADD`, the modifier `0` and the format tags
`FP32 FP32 FP32 `, and each with a result field of exactly 8 hex digits. -/
theorem C8_fmadd_end_to_end (E : FFEngine) (rnd : Nat → Nat → Nat → Nat) :
    configOf ⟨some 5, some "FMADD", none⟩ = some fmaddConfig ∧
    genFile E fmaddConfig rnd =
      some (headerLine :: (List.range 5).map (fun k =>
        "FMADD 0 FP32 FP32 FP32 " ++
          (recordAccsFinal E fmaddConfig k (rnd k)).e_cc ++
          (recordAccsFinal E fmaddConfig k (rnd k)).c_cc ++
          (recordAccsFinal E fmaddConfig k (rnd k)).a_cc ++ " " ++
          (recordAccsFinal E fmaddConfig k (rnd k)).output)) ∧
    ((List.range 5).map (fun k =>
        "FMADD 0 FP32 FP32 FP32 " ++
          (recordAccsFinal E fmaddConfig k (rnd k)).e_cc ++
          (recordAccsFinal E fmaddConfig k (rnd k)).c_cc ++
          (recordAccsFinal E fmaddConfig k (rnd k)).a_cc ++ " " ++
          (recordAccsFinal E fmaddConfig k (rnd k)).output)).length = 5 ∧
    ∀ k : Nat, (recordAccsFinal E fmaddConfig k (rnd k)).output.length = 8 ∧
      ∀ c ∈ (recordAccsFinal E fmaddConfig k (rnd k)).output.data,
        c ∈ hexDigitChars := by
  have hline : ∀ (k : Nat) (rnd1 : Nat → Nat → Nat),
      recordLine E fmaddConfig k rnd1 =
        some ("FMADD 0 FP32 FP32 FP32 " ++
          (recordAccsFinal E fmaddConfig k rnd1).e_cc ++
          (recordAccsFinal E fmaddConfig k rnd1).c_cc ++
          (recordAccsFinal E fmaddConfig k rnd1).a_cc ++ " " ++
          (recordAccsFinal E fmaddConfig k rnd1).output) := fun _ _ => rfl
  have hnofix : ∀ (k : Nat) (rnd1 : Nat → Nat → Nat),
      recordAccsFinal E fmaddConfig k rnd1 = recordAccs E fmaddConfig k rnd1 := by
    intro k rnd1
    simp only [recordAccsFinal]
    rw [if_neg (by decide)]
  have hout : ∀ (k : Nat) (rnd1 : Nat → Nat → Nat),
      (recordAccs E fmaddConfig k rnd1).output =
        outPart E fmaddConfig rnd1 0 ++ "" := by
    intro k rnd1
    rw [recordAccs_eq, show laneIdxs fmaddConfig = [0] from rfl]
    rfl
  refine ⟨rfl, ?_, by simp, ?_⟩
  · unfold genFile genRecords
    rw [show fmaddConfig.nr_of_stimuli = 5 from rfl,
      mapM_option_eq_some _ _ (List.range 5) (fun k _ => hline k (rnd k))]
    rfl
  · intro k
    have hts := ts_own32 E.canon fmaddConfig.dst_fmt
      (laneResult E fmaddConfig
        (drawBits (a_fmt fmaddConfig) (rnd k 0 0))
        (drawBits (b_fmt fmaddConfig) (rnd k 0 1))
        (drawBits (c_fmt fmaddConfig) (rnd k 0 2))
        (drawBits (d_fmt fmaddConfig) (rnd k 0 3))
        (drawBits (e_fmt fmaddConfig) (rnd k 0 4))) rfl
    have hop : (outPart E fmaddConfig (rnd k) 0).length = 8 := hts.1
    have hom : ∀ c ∈ (outPart E fmaddConfig (rnd k) 0).data, c ∈ hexDigitChars :=
      hts.2
    rw [hnofix k (rnd k), hout k (rnd k)]
    constructor
    · rw [String.length_append, hop]
      rfl
    · intro c hcm
      rw [String.data_append] at hcm
      rcases List.mem_append.mp hcm with h | h
      · exact hom c h
      · have hnil : c ∈ ([] : List Char) := h
        simp at hnil

/-- Witness for C8 at a concrete engine and random stream: the parsed
configuration and an 8-digit result field on record 0. -/
theorem C8_witness :
    configOf ⟨some 5, some "FMADD", none⟩ = some fmaddConfig ∧
    (recordAccsFinal idEngine fmaddConfig 0 zeroStream).output.length = 8 :=
  ⟨(C8_fmadd_end_to_end idEngine (fun _ => zeroStream)).1,
   ((C8_fmadd_end_to_end idEngine (fun _ => zeroStream)).2.2.2 0).1⟩

/-- C10: an operation argument that is none of SDOTP, VSUM, EXVSUM, FMADD
raises no error: the else-if chain falls through, leaving the default
operation SDOTP with the default formats (src FP16, src2 FP16, dst FP32),
the resulting configuration is identical to the one produced by passing
"SDOTP", and a full stimuli file of `n` records is generated. -/
theorem C10_unknown_op_defaults (s : String) (n : Nat)
    (h1 : s ≠ "SDOTP") (h2 : s ≠ "VSUM") (h3 : s ≠ "EXVSUM")
    (h4 : s ≠ "FMADD") :
    configOf ⟨some n, some s, none⟩ =
      some ⟨.SDOTP, n, FP16, FP16, FP32⟩ ∧
    configOf ⟨some n, some s, none⟩ = configOf ⟨some n, some "SDOTP", none⟩ ∧
    ∀ (E : FFEngine) (rnd : Nat → Nat → Nat → Nat),
      Option.map List.length
        (genRecords E ⟨.SDOTP, n, FP16, FP16, FP32⟩ rnd) = some n := by
  have hc : configOf ⟨some n, some s, none⟩ =
      some ⟨.SDOTP, n, FP16, FP16, FP32⟩ := by
    simp [configOf, defaultConfig, h1, h2, h3, h4]
  refine ⟨hc, ?_, ?_⟩
  · rw [hc]
    rfl
  · intro E rnd
    have hline : ∀ (k : Nat) (rnd1 : Nat → Nat → Nat),
        recordLine E ⟨.SDOTP, n, FP16, FP16, FP32⟩ k rnd1 =
          some ("SDOTP 0 FP16 FP16 FP32 " ++
            (recordAccsFinal E ⟨.SDOTP, n, FP16, FP16, FP32⟩ k rnd1).e_cc ++
            (recordAccsFinal E ⟨.SDOTP, n, FP16, FP16, FP32⟩ k rnd1).db_cc ++
            (recordAccsFinal E ⟨.SDOTP, n, FP16, FP16, FP32⟩ k rnd1).ca_cc ++
            " " ++
            (recordAccsFinal E ⟨.SDOTP, n, FP16, FP16, FP32⟩ k rnd1).output) :=
      fun _ _ => rfl
    unfold genRecords
    rw [mapM_option_eq_some _ _ (List.range n) (fun k _ => hline k (rnd k))]
    simp

/-- Witness for C10: the unrecognised operation name "FOO" with 7 stimuli
yields the default SDOTP configuration, identical to an explicit "SDOTP"
invocation, and 7 generated records. -/
theorem C10_witness :
    configOf ⟨some 7, some "FOO", none⟩ =
      some ⟨.SDOTP, 7, FP16, FP16, FP32⟩ ∧
    configOf ⟨some 7, some "FOO", none⟩ =
      configOf ⟨some 7, some "SDOTP", none⟩ ∧
    Option.map List.length
      (genRecords idEngine ⟨.SDOTP, 7, FP16, FP16, FP32⟩ (fun _ => zeroStream)) =
      some 7 :=
  ⟨(C10_unknown_op_defaults "FOO" 7 (by decide) (by decide) (by decide)
      (by decide)).1,
   (C10_unknown_op_defaults "FOO" 7 (by decide) (by decide) (by decide)
      (by decide)).2.1,
   (C10_unknown_op_defaults "FOO" 7 (by decide) (by decide) (by decide)
      (by decide)).2.2 idEngine (fun _ => zeroStream)⟩

end GenStimuli
